import Mathlib

/-!
Verification of the dr-rag-project query-result cache and request-coalescing
layer, and of the mobile client's query/rubric stores.

The spec (spec.md §9) records that the cache subsystem itself is not present
in the repository source: only its externally observed parameters (1000-entry
LRU, 24h TTL, normalized-key hashing, stats/clear endpoints) and its callers
are. The cache-layer definitions below are therefore modelled from the spec's
words (§3–§5, §7); the client-side definitions (query store, rubric store,
rubric-table parser) are embeddings of the TypeScript source under
`src/dr-rag-mobile` and `src/unnamed`.

Machine integers are modelled as `Nat`; time is an abstract `Nat` clock.
-/

abbrev Fingerprint := String

/-- Modelled from the spec (§3): a CacheEntry holds the fingerprint, an owned
answer payload, creation and expiry instants, and a hit counter. -/
structure CacheEntry where
  fingerprint : Fingerprint
  payload : String
  created_at : Nat
  expires_at : Nat
  hit_count : Nat
deriving Repr, DecidableEq

/-- Modelled from the spec (§3, §4.2): the Cache Store is a bounded
key→entry map with TTL and LRU eviction. `entries` is kept in recency
order, most-recently-used first; `hits`, `misses`, `evictions` are the
process-wide lifetime counters of CacheStats. -/
structure CacheStore where
  maxEntries : Nat
  entries : List (Fingerprint × CacheEntry)
  hits : Nat
  misses : Nat
  evictions : Nat
deriving Repr, DecidableEq

/-- Modelled from the spec (§3): CacheStats snapshot. -/
structure CacheStats where
  hits : Nat
  misses : Nat
  size : Nat
  evictions : Nat
deriving Repr, DecidableEq

namespace CacheStore

/-- A freshly constructed store with the configured maximum entry count. -/
def empty (maxE : Nat) : CacheStore :=
  { maxEntries := maxE, entries := [], hits := 0, misses := 0, evictions := 0 }

/-- Modelled from the spec (§4.2, §8 scenario): an entry inserted at `t=0`
with TTL 1 hits at `t=0.5` and misses at `t=1.5`, and a get at or after
`created_at + ttl` is a miss, so an entry is expired exactly when
`expires_at ≤ now`. -/
def isExpired (now : Nat) (e : CacheEntry) : Bool :=
  e.expires_at ≤ now

/-- Remove every binding for key `f`. -/
def eraseKey (f : Fingerprint) (l : List (Fingerprint × CacheEntry)) :
    List (Fingerprint × CacheEntry) :=
  l.filter (fun p => p.1 != f)

/-- Remove the least-recently-used expired entry (the last expired one in
recency order), if any entry is expired. -/
def removeLastExpired (now : Nat) :
    List (Fingerprint × CacheEntry) → Option (List (Fingerprint × CacheEntry))
  | [] => none
  | p :: rest =>
    match removeLastExpired now rest with
    | some rest2 => some (p :: rest2)
    | none => if isExpired now p.2 then some rest else none

/-- Modelled from the spec (§4.2): the eviction victim is the
least-recently-used entry, expired entries being preferred victims over
live ones; with no expired entry this is the last element in recency
order. -/
def evictOne (now : Nat) (l : List (Fingerprint × CacheEntry)) :
    List (Fingerprint × CacheEntry) :=
  (removeLastExpired now l).getD l.dropLast

/-- Modelled from the spec (§4.2 `get`): absent both for never-seen and for
present-but-expired keys, each counted as a miss; a live hit refreshes
recency (moves the entry to the front), increments its `hit_count` and the
global `hits`. Expiry is checked lazily; an expired entry stays in place as
a preferred eviction victim. -/
def get (now : Nat) (f : Fingerprint) (s : CacheStore) :
    Option CacheEntry × CacheStore :=
  match s.entries.lookup f with
  | none => (none, { s with misses := s.misses + 1 })
  | some e =>
    if isExpired now e then
      (none, { s with misses := s.misses + 1 })
    else
      let e2 := { e with hit_count := e.hit_count + 1 }
      (some e2,
       { s with entries := (f, e2) :: eraseKey f s.entries,
                hits := s.hits + 1 })

/-- Modelled from the spec (§4.2 `put`): overwrite any existing entry for the
fingerprint unconditionally (refreshing recency); otherwise, if inserting
would exceed `maxEntries`, evict the preferred LRU victim first and count
the eviction; the new entry gets a fresh TTL and `hit_count = 0`. -/
def put (now : Nat) (f : Fingerprint) (payload : String) (ttl : Nat)
    (s : CacheStore) : CacheStore :=
  let e : CacheEntry :=
    { fingerprint := f, payload := payload, created_at := now,
      expires_at := now + ttl, hit_count := 0 }
  if (s.entries.lookup f).isSome then
    { s with entries := (f, e) :: eraseKey f s.entries }
  else if s.maxEntries ≤ s.entries.length then
    { s with entries := (f, e) :: evictOne now s.entries,
             evictions := s.evictions + 1 }
  else
    { s with entries := (f, e) :: s.entries }

/-- Modelled from the spec (§4.2): remove one entry if present; no-op
otherwise. -/
def invalidate (f : Fingerprint) (s : CacheStore) : CacheStore :=
  { s with entries := eraseKey f s.entries }

/-- Modelled from the spec (§4.2): `clear()` removes all entries but keeps
the lifetime `hits`/`misses`/`evictions` counters. -/
def clear (s : CacheStore) : CacheStore :=
  { s with entries := [] }

/-- Current entry count. -/
def size (s : CacheStore) : Nat :=
  s.entries.length

/-- Modelled from the spec (§4.2): consistent stats snapshot. -/
def stats (s : CacheStore) : CacheStats :=
  { hits := s.hits, misses := s.misses, size := s.size,
    evictions := s.evictions }

end CacheStore

/-- One Cache Store operation, for reasoning about operation sequences. -/
inductive CacheOp where
  | get (now : Nat) (f : Fingerprint)
  | put (now : Nat) (f : Fingerprint) (payload : String) (ttl : Nat)
  | invalidate (f : Fingerprint)
  | clear
deriving Repr, DecidableEq

/-- Apply one operation to the store (the get result is discarded; only the
state matters for the invariants). -/
def CacheStore.applyOp (s : CacheStore) : CacheOp → CacheStore
  | .get now f => (CacheStore.get now f s).2
  | .put now f payload ttl => CacheStore.put now f payload ttl s
  | .invalidate f => CacheStore.invalidate f s
  | .clear => CacheStore.clear s

/-- Run a sequence of operations from a starting store. -/
def CacheStore.run (s : CacheStore) (ops : List CacheOp) : CacheStore :=
  ops.foldl CacheStore.applyOp s

/-- QueryRequest, from `src/unnamed/part_007` lines 11–15: a question, an
optional source filter, and an optional top_k. -/
structure QueryRequest where
  question : String
  source_filter : Option (List String)
  top_k : Option Nat
deriving Repr, DecidableEq

/-- Split a character list at every whitespace character, keeping the
(possibly empty) pieces in between. -/
def splitWhitespaceAux (cur : List Char) : List Char → List (List Char)
  | [] => [cur.reverse]
  | c :: cs =>
    if c.isWhitespace then cur.reverse :: splitWhitespaceAux [] cs
    else splitWhitespaceAux (c :: cur) cs

/-- Join words with single spaces. -/
def joinWords : List (List Char) → List Char
  | [] => []
  | [w] => w
  | w :: ws => w ++ ' ' :: joinWords ws

/-- Modelled from the spec (§4.1 rule 1): trim leading/trailing whitespace,
collapse internal whitespace runs to a single space, and lower-case
locale-independently. Splitting on whitespace, dropping empty pieces and
re-joining with single spaces performs the trim and the collapse at once. -/
def normalizeQuestion (q : String) : String :=
  ⟨joinWords ((splitWhitespaceAux [] (q.data.map Char.toLower)).filter
      (fun w => !w.isEmpty))⟩

/-- Lexicographic (code-point) order on strings, as an executable Boolean. -/
def charListLe : List Char → List Char → Bool
  | [], _ => true
  | _ :: _, [] => false
  | a :: as, b :: bs =>
    if a < b then true else if b < a then false else charListLe as bs

def strLe (a b : String) : Bool :=
  charListLe a.data b.data

def insertSorted (x : String) : List String → List String
  | [] => [x]
  | y :: ys => if strLe x y then x :: y :: ys else y :: insertSorted x ys

def sortStrings : List String → List String
  | [] => []
  | x :: xs => insertSorted x (sortStrings xs)

/-- Modelled from the spec (§4.1 rule 2): treat the source filter as a set —
deduplicate, then sort lexicographically; the absence of a filter stays a
distinct value from an empty filter. -/
def normalizeFilter : Option (List String) → Option (List String)
  | none => none
  | some l => some (sortStrings l.dedup)

/-- Modelled from the spec (§4.1 rule 3): substitute the configured default
for an absent top_k. -/
def effectiveTopK (defaultTopK : Nat) (r : QueryRequest) : Nat :=
  r.top_k.getD defaultTopK

/-- Length-prefix a component so the combined key is unambiguous (§4.1
rule 4). -/
def lengthPrefixed (s : String) : String :=
  toString s.length ++ ":" ++ s

def filterComponent : Option (List String) → String
  | none => "nofilter"
  | some l => "filter:" ++ String.intercalate "" (l.map lengthPrefixed)

/-- Modelled from the spec (§4.1 rule 4): combine the three normalized
components unambiguously; the concatenation itself serves as the key (the
spec allows this in place of hashing). -/
def fingerprint (defaultTopK : Nat) (r : QueryRequest) : Fingerprint :=
  lengthPrefixed (normalizeQuestion r.question) ++ "|" ++
  lengthPrefixed (filterComponent (normalizeFilter r.source_filter)) ++ "|" ++
  toString (effectiveTopK defaultTopK r)

/-- Modelled from the spec (§6 Configuration): recognized options. -/
structure CacheConfig where
  maxEntries : Nat
  ttl : Nat
  defaultTopK : Nat
deriving Repr, DecidableEq

/-- Dead/live classification of a lookup, as the first component of `get`. -/
def CacheStore.lookupLive (now : Nat) (f : Fingerprint)
    (entries : List (Fingerprint × CacheEntry)) : Option CacheEntry :=
  match entries.lookup f with
  | none => none
  | some e =>
    if CacheStore.isExpired now e then none
    else some { e with hit_count := e.hit_count + 1 }

/-- Modelled from the spec (§4.4): `query` runs the Fingerprint Builder, then
the store; a hit returns `(payload, was_cached = true)`; a miss invokes the
RAG Pipeline `computeFn` on the original request, stores the answer with a
fresh TTL and returns `(answer, was_cached = false)`. (Sequential view; the
coalesced concurrent view is modelled separately below.) -/
def CacheService.query (cfg : CacheConfig) (computeFn : QueryRequest → String)
    (now : Nat) (r : QueryRequest) (s : CacheStore) :
    (String × Bool) × CacheStore :=
  let f := fingerprint cfg.defaultTopK r
  let res := CacheStore.get now f s
  match res.1 with
  | some e => ((e.payload, true), res.2)
  | none =>
    let a := computeFn r
    ((a, false), CacheStore.put now f a cfg.ttl res.2)

abbrev CallId := Nat

/-- A result handed to one caller, with the surfaced `was_cached` flag. -/
structure Delivery where
  call : CallId
  result : Except String String
  was_cached : Bool
deriving Repr

/-- Modelled from the spec (§4.3, §5): the shared state seen by the
concurrent request-handling workers — the Cache Store, the Coalescer's
in-flight registry (fingerprint → registered waiters, the leader included),
a log of RAG Pipeline (`computeFn`) invocations, and the results delivered
to callers so far. -/
structure SysState where
  store : CacheStore
  inflight : List (Fingerprint × List CallId)
  invocations : List Fingerprint
  delivered : List Delivery
deriving Repr

/-- An atomic step of the coalesced cache service: a caller arriving, or the
single in-flight computation for a fingerprint completing. -/
inductive SysEvent where
  | arrive (now : Nat) (c : CallId) (f : Fingerprint)
  | complete (now : Nat) (f : Fingerprint) (res : Except String String)
deriving Repr

def setInflight (f : Fingerprint) (ws : List CallId) :
    List (Fingerprint × List CallId) → List (Fingerprint × List CallId)
  | [] => []
  | p :: rest =>
    match p.1 == f with
    | true => (f, ws) :: setInflight f ws rest
    | false => p :: setInflight f ws rest

def removeInflight (f : Fingerprint)
    (l : List (Fingerprint × List CallId)) : List (Fingerprint × List CallId) :=
  l.filter (fun p => p.1 != f)

/-- Modelled from the spec (§4.3): an arriving caller first checks the store;
a live hit is returned at once without touching the Coalescer. On a miss it
atomically checks the in-flight registry: if a computation exists it joins
as a waiter (no second `computeFn` invocation); otherwise it becomes the
leader, registers the InFlightComputation and invokes `computeFn` (logged in
`invocations`). On completion the leader stores a successful result with a
fresh TTL, delivers the identical result to every waiter and removes the
InFlightComputation; on failure it does not populate the store, delivers the
identical error to every waiter and still removes the InFlightComputation. -/
def sysStep (ttl : Nat) (s : SysState) : SysEvent → SysState
  | .arrive now c f =>
    match CacheStore.get now f s.store with
    | (some e, st2) =>
      { s with store := st2,
               delivered := s.delivered ++ [⟨c, Except.ok e.payload, true⟩] }
    | (none, st2) =>
      match s.inflight.lookup f with
      | some ws =>
        { s with store := st2, inflight := setInflight f (ws ++ [c]) s.inflight }
      | none =>
        { s with store := st2, inflight := (f, [c]) :: s.inflight,
                 invocations := s.invocations ++ [f] }
  | .complete now f res =>
    match s.inflight.lookup f with
    | none => s
    | some ws =>
      match res with
      | .ok a =>
        { s with store := CacheStore.put now f a ttl s.store,
                 inflight := removeInflight f s.inflight,
                 delivered := s.delivered ++
                   ws.map (fun c => ⟨c, Except.ok a, false⟩) }
      | .error err =>
        { s with inflight := removeInflight f s.inflight,
                 delivered := s.delivered ++
                   ws.map (fun c => ⟨c, Except.error err, false⟩) }

/-- All of `cs` arrive (in order, interleaved atomically) for fingerprint
`f`. -/
def arriveAll (ttl now : Nat) (f : Fingerprint) (cs : List CallId)
    (s : SysState) : SysState :=
  cs.foldl (fun st c => sysStep ttl st (.arrive now c f)) s

/-- A fresh system state: an empty store of the given capacity, no in-flight
computation, nothing invoked, nothing delivered. -/
def sysInit (maxE : Nat) : SysState :=
  { store := CacheStore.empty maxE, inflight := [], invocations := [],
    delivered := [] }

/-- A state with one in-flight computation for "F" with waiters 0 and 1. -/
def sysWithInflight : SysState :=
  { store := CacheStore.empty 10, inflight := [("F", [0, 1])],
    invocations := ["F"], delivered := [] }

/-- A single row in a parsed rubric table
(`src/dr-rag-mobile/src/types/rubric.ts`). -/
structure RubricRow where
  cells : List String
deriving Repr, DecidableEq

/-- A fully parsed rubric table extracted from an LLM response
(`src/dr-rag-mobile/src/types/rubric.ts`). -/
structure ParsedRubricTable where
  headers : List String
  rows : List RubricRow
deriving Repr, DecidableEq

/-- `answer.split('\n')` on character lists. -/
def splitLinesAux (cur : List Char) : List Char → List (List Char)
  | [] => [cur.reverse]
  | c :: cs =>
    if c = '\n' then cur.reverse :: splitLinesAux [] cs
    else splitLinesAux (c :: cur) cs

/-- JS `String.prototype.trim` on character lists (ASCII whitespace). -/
def trimChars (l : List Char) : List Char :=
  ((l.dropWhile Char.isWhitespace).reverse.dropWhile Char.isWhitespace).reverse

/-- The test `/^##\s+Repertorization/i` on an already-trimmed line. -/
def matchesRepertorization : List Char → Bool
  | '#' :: '#' :: c :: rest =>
    c.isWhitespace &&
      "repertorization".data.isPrefixOf
        ((rest.dropWhile Char.isWhitespace).map Char.toLower)
  | _ => false

/-- The boundary test `/^##\s/` on a trimmed line. -/
def isSectionBoundary : List Char → Bool
  | '#' :: '#' :: c :: _ => c.isWhitespace
  | _ => false

/-- The boundary test `/^---+$/` on a trimmed line: three or more dashes and
nothing else. -/
def isHorizontalRule (l : List Char) : Bool :=
  decide (3 ≤ l.length) && l.all (fun c => c = '-')

/-- `line.startsWith('|')`. -/
def startsWithPipe : List Char → Bool
  | '|' :: _ => true
  | _ => false

/-- Everything after the first line whose trimmed form matches
`/^##\s+Repertorization/i`, if such a line exists (the loop of
`parseRubricTable`, `src/unnamed/part_009` lines 17–25). -/
def findSectionTail : List (List Char) → Option (List (List Char))
  | [] => none
  | l :: rest =>
    if matchesRepertorization (trimChars l) then some rest
    else findSectionTail rest

/-- `line.split('|')` on character lists. -/
def splitPipeAux (cur : List Char) : List Char → List (List Char)
  | [] => [cur.reverse]
  | c :: cs =>
    if c = '|' then cur.reverse :: splitPipeAux [] cs
    else splitPipeAux (c :: cur) cs

/-- `parseCells` from `src/unnamed/part_009` lines 39–43:
`line.split('|').slice(1, -1).map(cell => cell.trim())`. -/
def parseCells (l : List Char) : List (List Char) :=
  (((splitPipeAux [] l).drop 1).dropLast).map trimChars

/-- One cell of a separator row: `/^[-:\s]+$/`. -/
def isSeparatorCell (cell : List Char) : Bool :=
  !cell.isEmpty &&
    cell.all (fun c => c = '-' || c = ':' || c.isWhitespace)

/-- `isSeparator` from `src/unnamed/part_009` lines 45–46. -/
def isSeparatorLine (l : List Char) : Bool :=
  (parseCells l).all isSeparatorCell

/-- Embedding of `parseRubricTable` (`src/unnamed/part_009` lines 13–60):
find the "## Repertorization" section, collect its trimmed lines up to the
next `##` heading or `---` rule, keep the lines starting with `|`, require
at least two of them, parse the first as headers, drop separator rows,
require non-empty headers and data rows, and pad each data row's cells to
the header count with empty strings. -/
def parseRubricTable (answer : String) : Option ParsedRubricTable :=
  let lines := splitLinesAux [] answer.data
  match findSectionTail lines with
  | none => none
  | some rest =>
    let sectionLines := (rest.map trimChars).takeWhile
        (fun t => !(isSectionBoundary t || isHorizontalRule t))
    let tableLines := sectionLines.filter startsWithPipe
    match tableLines with
    | first :: second :: restT =>
      let headers := parseCells first
      let dataLines := (second :: restT).filter (fun l => !isSeparatorLine l)
      if headers.isEmpty || dataLines.isEmpty then none
      else
        some { headers := headers.map (fun h => String.mk h),
               rows := dataLines.map (fun line =>
                 { cells := (List.range headers.length).map
                     (fun i => String.mk ((parseCells line).getD i [])) }) }
    | _ => none

/-- `hasRubricTable` from `src/unnamed/part_009` lines 65–67: the multiline
test `/^##\s+Repertorization/im` succeeds when some line matches (each line
examined without trimming). -/
def hasRubricTable (answer : String) : Bool :=
  (splitLinesAux [] answer.data).any matchesRepertorization

/-- A concrete parsed table used to witness C9. -/
def sampleRubricTable : ParsedRubricTable :=
  { headers := ["Rubric", "Remedy"],
    rows := [{ cells := ["Headache", "Belladonna"] }] }

/-- Citation, from `src/unnamed/part_007` lines 5–9. -/
structure Citation where
  source : String
  page : Option Nat
  excerpt : String
deriving Repr, DecidableEq

/-- QueryResponse, from `src/unnamed/part_007` lines 17–26; every successful
query carries the boolean `cached` flag. -/
structure QueryResponse where
  id : String
  question : String
  answer : String
  citations : List Citation
  sources_used : List String
  processing_time_ms : Nat
  cached : Bool
  created_at : String
deriving Repr, DecidableEq

/-- QueryHistoryItem, from `src/unnamed/part_007` lines 40–46 (the `Date`
timestamp kept as its source string). -/
structure QueryHistoryItem where
  id : String
  question : String
  answer : String
  timestamp : String
  cached : Bool
deriving Repr, DecidableEq

/-- The shape of an axios-style error as destructured by `submitQuery`
(`src/dr-rag-mobile/src/stores/queryStore.ts` lines 71–75):
`error.response?.data?.detail` and `error.message`. -/
structure ApiError where
  responseDetail : Option String
  message : Option String
deriving Repr, DecidableEq

/-- The query store state (`src/dr-rag-mobile/src/stores/queryStore.ts`
lines 14–23). -/
structure QueryStoreState where
  currentQuery : String
  currentResponse : Option QueryResponse
  isLoading : Bool
  error : Option String
  history : List QueryHistoryItem
  sources : List String
deriving Repr, DecidableEq

def MAX_HISTORY_ITEMS : Nat := 20

/-- JS `a || b` over an optional string: `null`/`undefined` and the empty
string are falsy and fall through to `b`. -/
def jsOrString (a : Option String) (b : String) : String :=
  match a with
  | none => b
  | some s => if s = "" then b else s

/-- The error message computed by `submitQuery` on failure
(`queryStore.ts` lines 72–75):
`error.response?.data?.detail || error.message || 'Failed to get remedy
recommendations'`. -/
def errorMessageOf (e : ApiError) : String :=
  jsOrString e.responseDetail
    (jsOrString e.message "Failed to get remedy recommendations")

/-- `addToHistory` (`queryStore.ts` lines 130–142): prepend a history item
built from the response — including its `cached` flag — and keep at most
`MAX_HISTORY_ITEMS`. -/
def addToHistory (resp : QueryResponse) (s : QueryStoreState) :
    QueryStoreState :=
  { s with history :=
      ({ id := resp.id, question := resp.question, answer := resp.answer,
         timestamp := resp.created_at, cached := resp.cached } ::
        s.history).take MAX_HISTORY_ITEMS }

/-- Embedding of `submitQuery` (`queryStore.ts` lines 56–84), parametrized
by the outcome of the awaited `queryService.query(request)`: on success the
full QueryResponse (with its `cached` flag) is stored and returned; on
failure the thrown value is an Error built only from the computed message
string. -/
def submitQuery (serviceResult : Except ApiError QueryResponse)
    (s : QueryStoreState) : Except String QueryResponse × QueryStoreState :=
  let s1 := { s with isLoading := true, error := none }
  match serviceResult with
  | .ok resp =>
    (Except.ok resp,
     addToHistory resp { s1 with currentResponse := some resp,
                                 isLoading := false })
  | .error e =>
    let msg := errorMessageOf e
    (Except.error msg, { s1 with error := some msg, isLoading := false })

/-- A concrete response and store state used to witness C7. -/
def sampleResponse : QueryResponse :=
  { id := "r1", question := "q", answer := "a", citations := [],
    sources_used := [], processing_time_ms := 12, cached := true,
    created_at := "2024-01-01" }

def emptyQueryStoreState : QueryStoreState :=
  { currentQuery := "", currentResponse := none, isLoading := false,
    error := none, history := [], sources := [] }

def sampleApiError : ApiError :=
  { responseDetail := none, message := some "network down" }

/-- SavedRubric, from `src/dr-rag-mobile/src/types/rubric.ts` lines 17–23. -/
structure SavedRubric where
  id : String
  question : String
  queryResponseId : String
  table : ParsedRubricTable
  savedAt : String
deriving Repr, DecidableEq

def MAX_SAVED_RUBRICS : Nat := 50

/-- `isRubricSaved` (`rubricStore.ts` lines 62–66). -/
def isRubricSaved (qid : String) (savedRubrics : List SavedRubric) : Bool :=
  savedRubrics.any (fun r => r.queryResponseId == qid)

/-- `saveRubric` (`rubricStore.ts` lines 33–54): a no-op when the
queryResponseId is already saved; otherwise prepend a new entry (with the
generated id and timestamp passed explicitly) and keep at most
`MAX_SAVED_RUBRICS`. -/
def saveRubric (newId savedAt question qid : String)
    (table : ParsedRubricTable) (savedRubrics : List SavedRubric) :
    List SavedRubric :=
  if isRubricSaved qid savedRubrics then savedRubrics
  else
    ({ id := newId, question := question, queryResponseId := qid,
       table := table, savedAt := savedAt } :: savedRubrics).take
      MAX_SAVED_RUBRICS

/-- `deleteRubric` (`rubricStore.ts` lines 56–60). -/
def deleteRubric (i : String) (savedRubrics : List SavedRubric) :
    List SavedRubric :=
  savedRubrics.filter (fun r => r.id != i)

/-- `clearAllRubrics` (`rubricStore.ts` lines 68–70). -/
def clearAllRubrics (_savedRubrics : List SavedRubric) : List SavedRubric :=
  []

/-- The rubric-store invariant: at most 50 saved rubrics, and pairwise
distinct queryResponseIds. -/
def RubricInv (savedRubrics : List SavedRubric) : Prop :=
  savedRubrics.length ≤ MAX_SAVED_RUBRICS ∧
  (savedRubrics.map (fun r => r.queryResponseId)).Nodup

/-- A concrete table for the C10 witness. -/
def tinyRubricTable : ParsedRubricTable :=
  { headers := ["H"], rows := [{ cells := ["x"] }] }

namespace CacheStore

theorem length_eraseKey_le (f : Fingerprint)
    (l : List (Fingerprint × CacheEntry)) :
    (eraseKey f l).length ≤ l.length :=
  List.length_filter_le _ l

theorem length_eraseKey_lt (f : Fingerprint)
    (l : List (Fingerprint × CacheEntry)) (h : (l.lookup f).isSome) :
    (eraseKey f l).length < l.length := by
  induction l with
  | nil => simp [List.lookup] at h
  | cons p rest ih =>
    obtain ⟨k, v⟩ := p
    cases hp : f == k with
    | true =>
      have hk : f = k := by simpa using hp
      have hkf : (k != f) = false := by simp [bne, hk]
      have hkey : eraseKey f ((k, v) :: rest) = eraseKey f rest := by
        simp [eraseKey, List.filter_cons, hkf]
      rw [hkey]
      exact lt_of_le_of_lt (List.length_filter_le _ rest) (by simp)
    | false =>
      have hne : f ≠ k := by
        intro hEq
        rw [hEq] at hp
        simp at hp
      have hkf : (k != f) = true := by
        simp only [bne_iff_ne, ne_eq]
        exact fun hEq => hne hEq.symm
      have hlk : (rest.lookup f).isSome := by
        simpa [List.lookup, hp] using h
      have hkey : eraseKey f ((k, v) :: rest) = (k, v) :: eraseKey f rest := by
        simp [eraseKey, List.filter_cons, hkf]
      rw [hkey]
      simpa using Nat.succ_lt_succ (ih hlk)

theorem length_removeLastExpired (now : Nat)
    (l l2 : List (Fingerprint × CacheEntry))
    (h : removeLastExpired now l = some l2) :
    l2.length + 1 = l.length := by
  induction l generalizing l2 with
  | nil => simp [removeLastExpired] at h
  | cons p rest ih =>
    unfold removeLastExpired at h
    cases hr : removeLastExpired now rest with
    | some rest2 =>
      rw [hr] at h
      simp only [Option.some.injEq] at h
      subst h
      have := ih rest2 hr
      simp [← this]
    | none =>
      rw [hr] at h
      cases he : isExpired now p.2 with
      | true =>
        rw [he] at h
        simp at h
        subst h
        simp
      | false =>
        rw [he] at h
        simp at h

theorem length_evictOne (now : Nat) (l : List (Fingerprint × CacheEntry)) :
    (evictOne now l).length = l.length - 1 := by
  unfold evictOne
  cases hr : removeLastExpired now l with
  | some l2 =>
    have := length_removeLastExpired now l l2 hr
    simp only [Option.getD_some]
    omega
  | none => simp [List.length_dropLast]

theorem maxEntries_get (now : Nat) (f : Fingerprint) (s : CacheStore) :
    (get now f s).2.maxEntries = s.maxEntries := by
  unfold get
  split
  · rfl
  · split <;> rfl

theorem maxEntries_put (now : Nat) (f : Fingerprint) (payload : String)
    (ttl : Nat) (s : CacheStore) :
    (put now f payload ttl s).maxEntries = s.maxEntries := by
  simp only [put]
  split
  · rfl
  · split <;> rfl

theorem maxEntries_applyOp (s : CacheStore) (op : CacheOp) :
    (s.applyOp op).maxEntries = s.maxEntries := by
  cases op with
  | get now f => exact maxEntries_get now f s
  | put now f payload ttl => exact maxEntries_put now f payload ttl s
  | invalidate f => rfl
  | clear => rfl

theorem size_get_le (now : Nat) (f : Fingerprint) (s : CacheStore)
    (hs : s.size ≤ s.maxEntries) :
    (get now f s).2.size ≤ s.maxEntries := by
  unfold get
  split
  · exact hs
  next e heq =>
    split
    · exact hs
    · have hlt := length_eraseKey_lt f s.entries (by simp [heq])
      simp only [size, List.length_cons]
      have hs2 : s.entries.length ≤ s.maxEntries := hs
      omega

theorem size_put_le (now : Nat) (f : Fingerprint) (payload : String)
    (ttl : Nat) (s : CacheStore) (hmax : 1 ≤ s.maxEntries)
    (hs : s.size ≤ s.maxEntries) :
    (put now f payload ttl s).size ≤ s.maxEntries := by
  have hs2 : s.entries.length ≤ s.maxEntries := hs
  simp only [put]
  split
  next h1 =>
    have hlt := length_eraseKey_lt f s.entries h1
    simp only [size, List.length_cons]
    omega
  next h1 =>
    split
    next h2 =>
      have hlen := length_evictOne now s.entries
      simp only [size, List.length_cons, hlen]
      omega
    next h2 =>
      simp only [size, List.length_cons]
      omega

theorem size_applyOp_le (s : CacheStore) (op : CacheOp)
    (hmax : 1 ≤ s.maxEntries) (hs : s.size ≤ s.maxEntries) :
    (s.applyOp op).size ≤ s.maxEntries := by
  cases op with
  | get now f => exact size_get_le now f s hs
  | put now f payload ttl => exact size_put_le now f payload ttl s hmax hs
  | invalidate f => exact le_trans (length_eraseKey_le f s.entries) hs
  | clear => exact Nat.zero_le _

theorem size_run_le (s : CacheStore) (ops : List CacheOp)
    (hmax : 1 ≤ s.maxEntries) (hs : s.size ≤ s.maxEntries) :
    (s.run ops).size ≤ s.maxEntries := by
  induction ops generalizing s with
  | nil => exact hs
  | cons op rest ih =>
    have hmax2 : 1 ≤ (s.applyOp op).maxEntries := by
      rw [maxEntries_applyOp]; exact hmax
    have hs2 : (s.applyOp op).size ≤ (s.applyOp op).maxEntries := by
      rw [maxEntries_applyOp]; exact size_applyOp_le s op hmax hs
    have := ih (s.applyOp op) hmax2 hs2
    rw [maxEntries_applyOp] at this
    exact this

end CacheStore

/-- C3: for every sequence of get/put (and invalidate/clear) operations the
Cache Store never holds more than `maxEntries` entries, and in the concrete
scenario with `maxEntries = 2` — put A, put B, get A, put C — entry B is
evicted while C and A remain (in recency order), with one eviction counted. -/
theorem cacheStore_capacity_bound_and_lru_scenario
    (maxE : Nat) (hmax : 1 ≤ maxE) (ops : List CacheOp) :
    ((CacheStore.empty maxE).run ops).size ≤ maxE ∧
    (((CacheStore.empty 2).run
        [.put 0 "A" "pa" 10, .put 1 "B" "pb" 10, .get 2 "A",
         .put 3 "C" "pc" 10]).entries.map Prod.fst = ["C", "A"] ∧
     ((CacheStore.empty 2).run
        [.put 0 "A" "pa" 10, .put 1 "B" "pb" 10, .get 2 "A",
         .put 3 "C" "pc" 10]).evictions = 1) := by
  refine ⟨CacheStore.size_run_le _ ops hmax (by simp [CacheStore.empty, CacheStore.size]), ?_, ?_⟩
  · decide
  · decide

/-- Witness for C3 at maxEntries 1 and a concrete operation list. -/
theorem cacheStore_capacity_bound_and_lru_scenario_witness :
    ((CacheStore.empty 1).run
      [.put 0 "A" "pa" 5, .put 0 "B" "pb" 5, .get 1 "B"]).size ≤ 1 :=
  (cacheStore_capacity_bound_and_lru_scenario 1 (by decide)
    [.put 0 "A" "pa" 5, .put 0 "B" "pb" 5, .get 1 "B"]).1

theorem CacheStore.put_entries_head (now : Nat) (f : Fingerprint)
    (payload : String) (ttl : Nat) (s : CacheStore) :
    ∃ rest, (CacheStore.put now f payload ttl s).entries =
      (f, { fingerprint := f, payload := payload, created_at := now,
            expires_at := now + ttl, hit_count := 0 }) :: rest := by
  simp only [CacheStore.put]
  split
  · exact ⟨_, rfl⟩
  · split
    · exact ⟨_, rfl⟩
    · exact ⟨_, rfl⟩

/-- C4: an entry inserted with `ttl = T` at time `t0` is never returned at or
after `t0 + T`: such a get returns absent and is counted as a miss exactly
like a never-seen key, while a get strictly before `t0 + T` returns the
entry with the inserted payload. -/
theorem cacheEntry_ttl_expiry (s : CacheStore) (f : Fingerprint)
    (payload : String) (T t0 t : Nat) :
    (t0 + T ≤ t →
       (CacheStore.get t f (CacheStore.put t0 f payload T s)).1 = none ∧
       (CacheStore.get t f (CacheStore.put t0 f payload T s)).2.misses =
         (CacheStore.put t0 f payload T s).misses + 1) ∧
    (t < t0 + T →
       ∃ e, (CacheStore.get t f (CacheStore.put t0 f payload T s)).1 = some e ∧
         e.payload = payload ∧ e.expires_at = t0 + T) := by
  obtain ⟨rest, hent⟩ := CacheStore.put_entries_head t0 f payload T s
  have hlk : (CacheStore.put t0 f payload T s).entries.lookup f =
      some { fingerprint := f, payload := payload, created_at := t0,
             expires_at := t0 + T, hit_count := 0 } := by
    rw [hent]
    simp [List.lookup]
  constructor
  · intro ht
    have hexp : CacheStore.isExpired t
        { fingerprint := f, payload := payload, created_at := t0,
          expires_at := t0 + T, hit_count := 0 } = true := by
      simpa [CacheStore.isExpired] using ht
    simp [CacheStore.get, hlk, hexp]
  · intro ht
    have hexp : CacheStore.isExpired t
        { fingerprint := f, payload := payload, created_at := t0,
          expires_at := t0 + T, hit_count := 0 } = false := by
      simp [CacheStore.isExpired]
      omega
    refine ⟨{ fingerprint := f, payload := payload, created_at := t0,
              expires_at := t0 + T, hit_count := 1 }, ?_, rfl, rfl⟩
    simp [CacheStore.get, hlk, hexp]

/-- Witness for C4: TTL 1, inserted at t=0; a lookup at t=2 misses and a
lookup at t=0 hits with the inserted payload. -/
theorem cacheEntry_ttl_expiry_witness :
    (CacheStore.get 2 "X" (CacheStore.put 0 "X" "ans" 1 (CacheStore.empty 10))).1 = none ∧
    (∃ e, (CacheStore.get 0 "X" (CacheStore.put 0 "X" "ans" 1 (CacheStore.empty 10))).1 = some e ∧
      e.payload = "ans" ∧ e.expires_at = 0 + 1) :=
  ⟨((cacheEntry_ttl_expiry (CacheStore.empty 10) "X" "ans" 1 0 2).1 (by decide)).1,
   (cacheEntry_ttl_expiry (CacheStore.empty 10) "X" "ans" 1 0 0).2 (by decide)⟩

/-- C8: `clear()` removes all entries and resets `size` to zero while leaving
the cumulative `hits`, `misses`, and `evictions` counters untouched. -/
theorem clear_content_only_reset (s : CacheStore) :
    (CacheStore.clear s).entries = [] ∧ (CacheStore.clear s).size = 0 ∧
    (CacheStore.clear s).hits = s.hits ∧
    (CacheStore.clear s).misses = s.misses ∧
    (CacheStore.clear s).evictions = s.evictions :=
  ⟨rfl, rfl, rfl, rfl, rfl⟩

/-- C1: two requests that are semantically equivalent — equal question texts
after trim/collapse/lower-casing, source filters equal as deduplicated
lexicographically sorted sets, and equal effective top_k after default
substitution — receive the same fingerprint. -/
theorem fingerprint_respects_semantic_equivalence (d : Nat)
    (r1 r2 : QueryRequest)
    (hq : normalizeQuestion r1.question = normalizeQuestion r2.question)
    (hf : normalizeFilter r1.source_filter = normalizeFilter r2.source_filter)
    (hk : effectiveTopK d r1 = effectiveTopK d r2) :
    fingerprint d r1 = fingerprint d r2 := by
  simp only [fingerprint, hq, hf, hk]

/-- Witness for C1: a request with messy casing/spacing, an unordered
duplicated filter and an explicit top_k equal to the default fingerprints
identically to its tidy variant with top_k absent. -/
theorem fingerprint_respects_semantic_equivalence_witness :
    normalizeQuestion "  Back   PAIN remedy " = normalizeQuestion "back pain remedy" ∧
    normalizeFilter (some ["boericke", "allen", "boericke"]) =
      normalizeFilter (some ["allen", "boericke"]) ∧
    effectiveTopK 5 ⟨"  Back   PAIN remedy ", some ["boericke", "allen", "boericke"], some 5⟩ =
      effectiveTopK 5 ⟨"back pain remedy", some ["allen", "boericke"], none⟩ ∧
    fingerprint 5 ⟨"  Back   PAIN remedy ", some ["boericke", "allen", "boericke"], some 5⟩ =
      fingerprint 5 ⟨"back pain remedy", some ["allen", "boericke"], none⟩ :=
  ⟨by decide, by decide, by decide,
   fingerprint_respects_semantic_equivalence 5
     ⟨"  Back   PAIN remedy ", some ["boericke", "allen", "boericke"], some 5⟩
     ⟨"back pain remedy", some ["allen", "boericke"], none⟩
     (by decide) (by decide) (by decide)⟩

theorem CacheStore.get_fst (now : Nat) (f : Fingerprint) (s : CacheStore) :
    (CacheStore.get now f s).1 = CacheStore.lookupLive now f s.entries := by
  unfold CacheStore.get CacheStore.lookupLive
  cases hlk : s.entries.lookup f with
  | none => rfl
  | some e =>
    cases he : CacheStore.isExpired now e with
    | true => simp [he]
    | false => simp [he]

theorem CacheStore.get_cases (now : Nat) (f : Fingerprint) (s : CacheStore) :
    (∃ e s2, CacheStore.get now f s = (some e, s2) ∧
       CacheStore.isExpired now e = false ∧
       s2.entries = (f, e) :: CacheStore.eraseKey f s.entries) ∨
    (∃ s2, CacheStore.get now f s = (none, s2) ∧ s2.entries = s.entries) := by
  unfold CacheStore.get
  cases hlk : s.entries.lookup f with
  | none => exact Or.inr ⟨_, rfl, rfl⟩
  | some e =>
    cases he : CacheStore.isExpired now e with
    | true =>
      right
      refine ⟨{ s with misses := s.misses + 1 }, ?_, rfl⟩
      simp [he]
    | false =>
      left
      refine ⟨{ e with hit_count := e.hit_count + 1 },
        { s with entries := (f, { e with hit_count := e.hit_count + 1 }) ::
            CacheStore.eraseKey f s.entries, hits := s.hits + 1 },
        ?_, he, rfl⟩
      simp [he]

/-- C6: querying the same request twice in immediate succession (same
instant, positive TTL, no intervening invalidate/clear) yields the same
answer both times and the second call reports `was_cached = true`. -/
theorem query_idempotent_second_call_cached (cfg : CacheConfig)
    (computeFn : QueryRequest → String) (now : Nat) (r : QueryRequest)
    (s : CacheStore) (httl : 1 ≤ cfg.ttl) :
    (CacheService.query cfg computeFn now r
       (CacheService.query cfg computeFn now r s).2).1.1 =
      (CacheService.query cfg computeFn now r s).1.1 ∧
    (CacheService.query cfg computeFn now r
       (CacheService.query cfg computeFn now r s).2).1.2 = true := by
  rcases CacheStore.get_cases now (fingerprint cfg.defaultTopK r) s with
    ⟨e, s2, hg, he, hent⟩ | ⟨s2, hg, hent⟩
  · have hq1 : CacheService.query cfg computeFn now r s = ((e.payload, true), s2) := by
      simp [CacheService.query, hg]
    have hlk2 : s2.entries.lookup (fingerprint cfg.defaultTopK r) = some e := by
      rw [hent]
      simp [List.lookup]
    have he2 : CacheStore.isExpired now { e with hit_count := e.hit_count + 1 } = false := he
    have hq2 : (CacheService.query cfg computeFn now r s2).1 = (e.payload, true) := by
      simp [CacheService.query, CacheStore.get, hlk2, he]
    rw [hq1]
    simp [hq2]
  · have hq1 : CacheService.query cfg computeFn now r s =
        ((computeFn r, false),
         CacheStore.put now (fingerprint cfg.defaultTopK r) (computeFn r) cfg.ttl s2) := by
      simp [CacheService.query, hg]
    obtain ⟨rest, hent2⟩ :=
      CacheStore.put_entries_head now (fingerprint cfg.defaultTopK r) (computeFn r) cfg.ttl s2
    have hlk2 : (CacheStore.put now (fingerprint cfg.defaultTopK r) (computeFn r)
        cfg.ttl s2).entries.lookup (fingerprint cfg.defaultTopK r) =
        some { fingerprint := fingerprint cfg.defaultTopK r, payload := computeFn r,
               created_at := now, expires_at := now + cfg.ttl, hit_count := 0 } := by
      rw [hent2]
      simp [List.lookup]
    have hexp : CacheStore.isExpired now
        { fingerprint := fingerprint cfg.defaultTopK r, payload := computeFn r,
          created_at := now, expires_at := now + cfg.ttl, hit_count := 0 } = false := by
      simp [CacheStore.isExpired]
      omega
    have hq2 : (CacheService.query cfg computeFn now r
        (CacheStore.put now (fingerprint cfg.defaultTopK r) (computeFn r) cfg.ttl s2)).1 =
        (computeFn r, true) := by
      simp [CacheService.query, CacheStore.get, hlk2, hexp]
    rw [hq1]
    simp [hq2]

/-- Witness for C6 on a cold cache with a concrete compute function. -/
theorem query_idempotent_second_call_cached_witness :
    (CacheService.query ⟨10, 5, 3⟩ (fun _ => "answer42") 0 ⟨"q", none, none⟩
       (CacheService.query ⟨10, 5, 3⟩ (fun _ => "answer42") 0 ⟨"q", none, none⟩
         (CacheStore.empty 10)).2).1.1 =
      (CacheService.query ⟨10, 5, 3⟩ (fun _ => "answer42") 0 ⟨"q", none, none⟩
        (CacheStore.empty 10)).1.1 ∧
    (CacheService.query ⟨10, 5, 3⟩ (fun _ => "answer42") 0 ⟨"q", none, none⟩
       (CacheService.query ⟨10, 5, 3⟩ (fun _ => "answer42") 0 ⟨"q", none, none⟩
         (CacheStore.empty 10)).2).1.2 = true :=
  query_idempotent_second_call_cached ⟨10, 5, 3⟩ (fun _ => "answer42") 0
    ⟨"q", none, none⟩ (CacheStore.empty 10) (by decide)

theorem beq_false_symm {a b : String} (h : (a == b) = false) :
    (b == a) = false := by
  cases hba : b == a with
  | false => rfl
  | true =>
    have : b = a := by simpa using hba
    subst this
    simp at h

theorem lookup_setInflight (f : Fingerprint) (ws : List CallId)
    (l : List (Fingerprint × List CallId)) (h : (l.lookup f).isSome) :
    (setInflight f ws l).lookup f = some ws := by
  induction l with
  | nil => simp [List.lookup] at h
  | cons p rest ih =>
    obtain ⟨k, v⟩ := p
    cases hp : f == k with
    | true =>
      have : f = k := by simpa using hp
      subst this
      simp [setInflight, List.lookup]
    | false =>
      have hk : (k == f) = false := beq_false_symm hp
      have h2 : (rest.lookup f).isSome := by
        simpa [List.lookup, hp] using h
      have hset : setInflight f ws ((k, v) :: rest) =
          (k, v) :: setInflight f ws rest := by
        simp [setInflight, hk]
      rw [hset]
      simpa [List.lookup, hp] using ih h2

theorem lookup_removeInflight (f : Fingerprint)
    (l : List (Fingerprint × List CallId)) :
    (removeInflight f l).lookup f = none := by
  induction l with
  | nil => rfl
  | cons p rest ih =>
    obtain ⟨k, v⟩ := p
    cases hk : k == f with
    | true =>
      have hdrop : removeInflight f ((k, v) :: rest) = removeInflight f rest := by
        simp [removeInflight, List.filter_cons, bne, hk]
      rw [hdrop]
      exact ih
    | false =>
      have hne : (f == k) = false := beq_false_symm hk
      have hkeep : removeInflight f ((k, v) :: rest) =
          (k, v) :: removeInflight f rest := by
        simp [removeInflight, List.filter_cons, bne, hk]
      rw [hkeep]
      simpa [List.lookup, hne] using ih

theorem CacheStore.get_snd_entries (now : Nat) (f : Fingerprint)
    (s : CacheStore) (hmiss : (CacheStore.get now f s).1 = none) :
    ((CacheStore.get now f s).2).entries = s.entries := by
  rcases CacheStore.get_cases now f s with ⟨e, s2, hg, _, _⟩ | ⟨s2, hg, hent⟩
  · rw [hg] at hmiss
    simp at hmiss
  · rw [hg]
    exact hent

theorem sysStep_arrive_joining (ttl now : Nat) (c : CallId) (f : Fingerprint)
    (s : SysState) (ws : List CallId)
    (hmiss : (CacheStore.get now f s.store).1 = none)
    (hin : s.inflight.lookup f = some ws) :
    sysStep ttl s (.arrive now c f) =
      { s with store := (CacheStore.get now f s.store).2,
               inflight := setInflight f (ws ++ [c]) s.inflight } := by
  have hg : CacheStore.get now f s.store =
      (none, (CacheStore.get now f s.store).2) := by
    rw [Prod.ext_iff]
    exact ⟨hmiss, rfl⟩
  simp only [sysStep]
  rw [hg, hin]

theorem sysStep_arrive_leader (ttl now : Nat) (c : CallId) (f : Fingerprint)
    (s : SysState)
    (hmiss : (CacheStore.get now f s.store).1 = none)
    (hin : s.inflight.lookup f = none) :
    sysStep ttl s (.arrive now c f) =
      { s with store := (CacheStore.get now f s.store).2,
               inflight := (f, [c]) :: s.inflight,
               invocations := s.invocations ++ [f] } := by
  have hg : CacheStore.get now f s.store =
      (none, (CacheStore.get now f s.store).2) := by
    rw [Prod.ext_iff]
    exact ⟨hmiss, rfl⟩
  simp only [sysStep]
  rw [hg, hin]

theorem sysStep_complete_ok (ttl now : Nat) (f : Fingerprint) (a : String)
    (s : SysState) (ws : List CallId) (hin : s.inflight.lookup f = some ws) :
    sysStep ttl s (.complete now f (.ok a)) =
      { s with store := CacheStore.put now f a ttl s.store,
               inflight := removeInflight f s.inflight,
               delivered := s.delivered ++
                 ws.map (fun c => ⟨c, Except.ok a, false⟩) } := by
  simp only [sysStep]
  rw [hin]

theorem sysStep_complete_error (ttl now : Nat) (f : Fingerprint) (err : String)
    (s : SysState) (ws : List CallId) (hin : s.inflight.lookup f = some ws) :
    sysStep ttl s (.complete now f (.error err)) =
      { s with inflight := removeInflight f s.inflight,
               delivered := s.delivered ++
                 ws.map (fun c => ⟨c, Except.error err, false⟩) } := by
  simp only [sysStep]
  rw [hin]

theorem arriveAll_joining (ttl now : Nat) (f : Fingerprint) :
    ∀ (cs : List CallId) (s : SysState) (ws : List CallId),
      (CacheStore.get now f s.store).1 = none →
      s.inflight.lookup f = some ws →
      (arriveAll ttl now f cs s).inflight.lookup f = some (ws ++ cs) ∧
      (arriveAll ttl now f cs s).store.entries = s.store.entries ∧
      (arriveAll ttl now f cs s).invocations = s.invocations ∧
      (arriveAll ttl now f cs s).delivered = s.delivered := by
  intro cs
  induction cs with
  | nil =>
    intro s ws hmiss hin
    exact ⟨by simpa using hin, rfl, rfl, rfl⟩
  | cons c cs ih =>
    intro s ws hmiss hin
    have hstep := sysStep_arrive_joining ttl now c f s ws hmiss hin
    have h2in : (sysStep ttl s (.arrive now c f)).inflight.lookup f =
        some (ws ++ [c]) := by
      rw [hstep]
      exact lookup_setInflight f (ws ++ [c]) s.inflight (by simp [hin])
    have h2ent : (sysStep ttl s (.arrive now c f)).store.entries =
        s.store.entries := by
      rw [hstep]
      exact CacheStore.get_snd_entries now f s.store hmiss
    have h2miss : (CacheStore.get now f
        (sysStep ttl s (.arrive now c f)).store).1 = none := by
      rw [CacheStore.get_fst, h2ent, ← CacheStore.get_fst]
      exact hmiss
    have h2inv : (sysStep ttl s (.arrive now c f)).invocations =
        s.invocations := by
      rw [hstep]
    have h2del : (sysStep ttl s (.arrive now c f)).delivered = s.delivered := by
      rw [hstep]
    obtain ⟨ha, hb, hcv, hd⟩ :=
      ih (sysStep ttl s (.arrive now c f)) (ws ++ [c]) h2miss h2in
    have harr : arriveAll ttl now f (c :: cs) s =
        arriveAll ttl now f cs (sysStep ttl s (.arrive now c f)) := rfl
    rw [harr]
    exact ⟨by rw [ha]; simp, by rw [hb, h2ent], by rw [hcv, h2inv],
           by rw [hd, h2del]⟩

/-- C2: when `N ≥ 1` callers arrive concurrently for the same fingerprint on
a cache with no live entry and no in-flight computation, exactly one
`computeFn` invocation is logged over the whole trace, and on completion
every caller is delivered the identical answer. -/
theorem coalescer_computes_once_all_identical (ttl now : Nat)
    (f : Fingerprint) (a : String) (cs : List CallId) (s0 : SysState)
    (hne : cs ≠ [])
    (hcold : (CacheStore.get now f s0.store).1 = none)
    (hnofl : s0.inflight.lookup f = none) :
    ((sysStep ttl (arriveAll ttl now f cs s0)
        (.complete now f (.ok a))).invocations.count f =
      s0.invocations.count f + 1) ∧
    (∀ c ∈ cs,
      (⟨c, Except.ok a, false⟩ : Delivery) ∈
        (sysStep ttl (arriveAll ttl now f cs s0)
          (.complete now f (.ok a))).delivered) := by
  obtain ⟨c0, cs2, rfl⟩ := List.exists_cons_of_ne_nil hne
  have hstep := sysStep_arrive_leader ttl now c0 f s0 hcold hnofl
  have h1in : (sysStep ttl s0 (.arrive now c0 f)).inflight.lookup f =
      some [c0] := by
    rw [hstep]
    simp [List.lookup]
  have h1ent : (sysStep ttl s0 (.arrive now c0 f)).store.entries =
      s0.store.entries := by
    rw [hstep]
    exact CacheStore.get_snd_entries now f s0.store hcold
  have h1miss : (CacheStore.get now f
      (sysStep ttl s0 (.arrive now c0 f)).store).1 = none := by
    rw [CacheStore.get_fst, h1ent, ← CacheStore.get_fst]
    exact hcold
  have h1inv : (sysStep ttl s0 (.arrive now c0 f)).invocations =
      s0.invocations ++ [f] := by
    rw [hstep]
  have h1del : (sysStep ttl s0 (.arrive now c0 f)).delivered =
      s0.delivered := by
    rw [hstep]
  have harr : arriveAll ttl now f (c0 :: cs2) s0 =
      arriveAll ttl now f cs2 (sysStep ttl s0 (.arrive now c0 f)) := rfl
  obtain ⟨ha, hb, hcv, hd⟩ := arriveAll_joining ttl now f cs2
    (sysStep ttl s0 (.arrive now c0 f)) [c0] h1miss h1in
  have hcomp := sysStep_complete_ok ttl now f a
    (arriveAll ttl now f (c0 :: cs2) s0) ([c0] ++ cs2)
    (by rw [harr]; exact ha)
  constructor
  · have hinv : (sysStep ttl (arriveAll ttl now f (c0 :: cs2) s0)
        (.complete now f (.ok a))).invocations = s0.invocations ++ [f] := by
      rw [hcomp]
      show (arriveAll ttl now f (c0 :: cs2) s0).invocations = _
      rw [harr, hcv, h1inv]
    rw [hinv]
    simp
  · intro c hcmem
    have hdel : (sysStep ttl (arriveAll ttl now f (c0 :: cs2) s0)
        (.complete now f (.ok a))).delivered =
        (arriveAll ttl now f (c0 :: cs2) s0).delivered ++
          ([c0] ++ cs2).map (fun c => ⟨c, Except.ok a, false⟩) := by
      rw [hcomp]
    rw [hdel]
    exact List.mem_append_right _
      (List.mem_map_of_mem _ (by simpa using hcmem))

/-- Witness for C2: three concurrent callers on a cold cache; one invocation
is logged and caller 1 receives the computed answer. -/
theorem coalescer_computes_once_all_identical_witness :
    ((sysStep 5 (arriveAll 5 0 "F" [0, 1, 2] (sysInit 10))
        (.complete 0 "F" (.ok "ans"))).invocations.count "F" =
      (sysInit 10).invocations.count "F" + 1) ∧
    (⟨1, Except.ok "ans", false⟩ : Delivery) ∈
      (sysStep 5 (arriveAll 5 0 "F" [0, 1, 2] (sysInit 10))
        (.complete 0 "F" (.ok "ans"))).delivered := by
  have h := coalescer_computes_once_all_identical 5 0 "F" "ans" [0, 1, 2]
    (sysInit 10) (by simp) (by decide) (by decide)
  exact ⟨h.1, h.2 1 (by simp)⟩

/-- C5: when the single upstream computation of a coalesced group fails,
every registered waiter is delivered that same error, the Cache Store is
left untouched (the failure is not cached), the InFlightComputation is
removed, and the very next arrival for that fingerprint invokes `computeFn`
again. -/
theorem coalescer_failure_not_cached_and_retries (ttl now now2 : Nat)
    (f : Fingerprint) (err : String) (s : SysState) (ws : List CallId)
    (c2 : CallId)
    (hin : s.inflight.lookup f = some ws)
    (hcold : (CacheStore.get now2 f s.store).1 = none) :
    (∀ c ∈ ws, (⟨c, Except.error err, false⟩ : Delivery) ∈
       (sysStep ttl s (.complete now f (.error err))).delivered) ∧
    (sysStep ttl s (.complete now f (.error err))).store = s.store ∧
    (sysStep ttl s (.complete now f (.error err))).inflight.lookup f = none ∧
    (sysStep ttl (sysStep ttl s (.complete now f (.error err)))
        (.arrive now2 c2 f)).invocations =
      (sysStep ttl s (.complete now f (.error err))).invocations ++ [f] := by
  have hstep := sysStep_complete_error ttl now f err s ws hin
  refine ⟨?_, ?_, ?_, ?_⟩
  · intro c hc
    rw [hstep]
    exact List.mem_append_right _ (List.mem_map_of_mem _ hc)
  · rw [hstep]
  · rw [hstep]
    exact lookup_removeInflight f s.inflight
  · have h2miss : (CacheStore.get now2 f
        (sysStep ttl s (.complete now f (.error err))).store).1 = none := by
      rw [hstep]
      exact hcold
    have h2in : (sysStep ttl s (.complete now f (.error err))).inflight.lookup
        f = none := by
      rw [hstep]
      exact lookup_removeInflight f s.inflight
    have hlead := sysStep_arrive_leader ttl now2 c2 f
      (sysStep ttl s (.complete now f (.error err))) h2miss h2in
    rw [hlead]

/-- Witness for C5: the computation for "F" fails; waiter 0 receives the
error, the store is untouched, the slot is removed, and a later call for
"F" triggers a fresh invocation. -/
theorem coalescer_failure_not_cached_and_retries_witness :
    (⟨0, Except.error "boom", false⟩ : Delivery) ∈
      (sysStep 5 sysWithInflight (.complete 0 "F" (.error "boom"))).delivered ∧
    (sysStep 5 sysWithInflight (.complete 0 "F" (.error "boom"))).store =
      sysWithInflight.store ∧
    (sysStep 5 sysWithInflight
        (.complete 0 "F" (.error "boom"))).inflight.lookup "F" = none ∧
    (sysStep 5 (sysStep 5 sysWithInflight (.complete 0 "F" (.error "boom")))
        (.arrive 1 7 "F")).invocations =
      (sysStep 5 sysWithInflight
        (.complete 0 "F" (.error "boom"))).invocations ++ ["F"] := by
  have h := coalescer_failure_not_cached_and_retries 5 0 1 "F" "boom"
    sysWithInflight [0, 1] 7 (by decide) (by decide)
  exact ⟨h.1 0 (by simp), h.2.1, h.2.2.1, h.2.2.2⟩

/-- C9: whenever `parseRubricTable` returns a table, its header list is
non-empty, its row list is non-empty, and every row has exactly one cell per
header (missing trailing cells padded with the empty string). -/
theorem parseRubricTable_wellformed (answer : String) (t : ParsedRubricTable)
    (h : parseRubricTable answer = some t) :
    t.headers ≠ [] ∧ t.rows ≠ [] ∧
    ∀ row ∈ t.rows, row.cells.length = t.headers.length := by
  simp only [parseRubricTable] at h
  split at h
  · exact absurd h (by simp)
  · split at h
    · split at h
      · exact absurd h (by simp)
      next hcond =>
        rw [Option.some.injEq] at h
        subst h
        simp only [Bool.or_eq_true, not_or, Bool.not_eq_true,
          List.isEmpty_eq_false_iff_exists_mem] at hcond
        obtain ⟨hhead, hdata⟩ := hcond
        refine ⟨?_, ?_, ?_⟩
        · simp only [ne_eq, List.map_eq_nil_iff]
          intro hnil
          rw [hnil] at hhead
          simp at hhead
        · simp only [ne_eq, List.map_eq_nil_iff]
          intro hnil
          rw [hnil] at hdata
          simp at hdata
        · intro row hrow
          simp only [List.mem_map] at hrow
          obtain ⟨line, _, hline⟩ := hrow
          subst hline
          simp
    · exact absurd h (by simp)

/-- Witness for C9 on a concrete answer containing a repertorization
table with one data row. -/
theorem parseRubricTable_wellformed_witness :
    sampleRubricTable.headers ≠ [] ∧ sampleRubricTable.rows ≠ [] ∧
    (({ cells := ["Headache", "Belladonna"] } : RubricRow)).cells.length =
      sampleRubricTable.headers.length := by
  have h := parseRubricTable_wellformed
    "## Repertorization\n| Rubric | Remedy |\n| --- | --- |\n| Headache | Belladonna |"
    sampleRubricTable (by decide)
  exact ⟨h.1, h.2.1, h.2.2 _ (by decide)⟩

/-- C7: a successful `submitQuery` returns and stores the full QueryResponse
— whose `cached` boolean is surfaced to the caller and recorded in the
history item — while a failed `submitQuery` yields only an error message
string (derived from detail/message/fallback), which carries no `cached`
flag. -/
theorem submitQuery_surfaces_cached_flag_success_only
    (res : Except ApiError QueryResponse) (s : QueryStoreState) :
    (∀ resp, res = Except.ok resp →
       (submitQuery res s).1 = Except.ok resp ∧
       (submitQuery res s).2.currentResponse = some resp ∧
       ∃ item rest, (submitQuery res s).2.history = item :: rest ∧
         item.cached = resp.cached) ∧
    (∀ e, res = Except.error e →
       (submitQuery res s).1 = Except.error (errorMessageOf e) ∧
       (submitQuery res s).2.error = some (errorMessageOf e) ∧
       (submitQuery res s).2.currentResponse = s.currentResponse) := by
  constructor
  · intro resp hres
    subst hres
    exact ⟨rfl, rfl, _, _, rfl, rfl⟩
  · intro e hres
    subst hres
    exact ⟨rfl, rfl, rfl⟩

/-- Witness for C7: one successful and one failed submit at concrete
inputs. -/
theorem submitQuery_surfaces_cached_flag_success_only_witness :
    (submitQuery (Except.ok sampleResponse) emptyQueryStoreState).1 =
      Except.ok sampleResponse ∧
    (submitQuery (Except.error sampleApiError) emptyQueryStoreState).1 =
      Except.error (errorMessageOf sampleApiError) := by
  have h1 := (submitQuery_surfaces_cached_flag_success_only
    (Except.ok sampleResponse) emptyQueryStoreState).1 sampleResponse rfl
  have h2 := (submitQuery_surfaces_cached_flag_success_only
    (Except.error sampleApiError) emptyQueryStoreState).2 sampleApiError rfl
  exact ⟨h1.1, h2.1⟩

/-- C10: every rubric-store operation preserves the invariant of at most 50
saved rubrics with pairwise-distinct queryResponseIds, and saving an
already-saved queryResponseId leaves the list unchanged. -/
theorem rubricStore_operations_preserve_invariant (l : List SavedRubric)
    (newId savedAt question qid i : String) (table : ParsedRubricTable)
    (hInv : RubricInv l) :
    RubricInv (saveRubric newId savedAt question qid table l) ∧
    RubricInv (deleteRubric i l) ∧
    RubricInv (clearAllRubrics l) ∧
    (isRubricSaved qid l = true →
      saveRubric newId savedAt question qid table l = l) := by
  obtain ⟨hlen, hnodup⟩ := hInv
  refine ⟨?_, ?_, ?_, ?_⟩
  · unfold saveRubric
    split
    · exact ⟨hlen, hnodup⟩
    next hnot =>
      constructor
      · exact List.length_take_le _ _
      · have hmem : qid ∉ l.map (fun r => r.queryResponseId) := by
          intro hq
          apply hnot
          simp only [List.mem_map] at hq
          obtain ⟨r, hr, hrq⟩ := hq
          simp only [isRubricSaved, List.any_eq_true]
          exact ⟨r, hr, by simp [hrq]⟩
        have hnodup2 :
            (({ id := newId, question := question, queryResponseId := qid,
                table := table, savedAt := savedAt } :: l).map
              (fun r => r.queryResponseId)).Nodup := by
          simp only [List.map_cons]
          exact List.nodup_cons.mpr ⟨by simpa using hmem, hnodup⟩
        have hsub :
            ((({ id := newId, question := question, queryResponseId := qid,
                 table := table, savedAt := savedAt } :: l).take
               MAX_SAVED_RUBRICS).map (fun r => r.queryResponseId)).Sublist
              (({ id := newId, question := question, queryResponseId := qid,
                  table := table, savedAt := savedAt } :: l).map
                (fun r => r.queryResponseId)) :=
          List.Sublist.map _ (List.take_sublist _ _)
        exact List.Nodup.sublist hsub hnodup2
  · constructor
    · exact le_trans (List.length_filter_le _ l) hlen
    · have hsub : ((deleteRubric i l).map
          (fun r => r.queryResponseId)).Sublist
          (l.map (fun r => r.queryResponseId)) :=
        List.Sublist.map _ (List.filter_sublist l)
      exact List.Nodup.sublist hsub hnodup
  · exact ⟨by simp [clearAllRubrics, MAX_SAVED_RUBRICS], by simp [clearAllRubrics]⟩
  · intro hsaved
    unfold saveRubric
    rw [if_pos hsaved]

/-- Witness for C10 starting from the empty store. -/
theorem rubricStore_operations_preserve_invariant_witness :
    RubricInv (saveRubric "id1" "2024-01-01" "q" "qr1" tinyRubricTable []) ∧
    RubricInv (deleteRubric "id1" []) ∧
    RubricInv (clearAllRubrics []) := by
  have h := rubricStore_operations_preserve_invariant [] "id1" "2024-01-01"
    "q" "qr1" "id1" tinyRubricTable
    (by constructor <;> simp [MAX_SAVED_RUBRICS])
  exact ⟨h.1, h.2.1, h.2.2.1⟩
